import Mathlib

/- Verification of the intrusive connection server of the BCL repository.

   The development shallowly embeds the code of
   src/include/bcl/IntrusiveConnection.h (the request/response hand-off
   primitive and the receive loop installed by IntrusiveConnection::connect),
   src/include/bcl/CSocket.h (the Connection descriptor) and
   src/lib/Socket/CSocket/CSocket.cpp (the per-connection socket engine and
   the listening loop of bcl::net::startServer).

   Strings are modelled as List Char.  The concurrent hand-off between the
   network side (the receive callback installed by connect) and the worker
   thread (the user function calling answer) is modelled as a small-step
   interleaving semantics: each thread is a program counter plus local
   state over the shared Status block, a schedule is a list of booleans
   choosing which thread attempts a step, and a thread blocked on a
   condition variable simply stutters. -/

namespace BCL

/-- Shared per-connection state, the Status struct of IntrusiveConnection
(IntrusiveConnection.h lines 70-75).  The two mutexes and the two condition
variables are modelled by the atomicity of steps and by enabledness
conditions of the small-step semantics. -/
structure Status where
  mReceiveData : List Char := []
  mSendData : List Char := []
  mIsReceive : Bool := false
  mIsSend : Bool := false
  mClose : Bool := false
  mReject : Bool := false
deriving DecidableEq

/-- The fixed rejection sentinel, IntrusiveConnection::Reject
(IntrusiveConnection.h lines 82-87). -/
def rejectCode : List Char := "REJECT".toList

/-- One call of std::getline(IS, Item, Delimiter) on the remaining stream
contents, assuming at least one character can be extracted or the delimiter
is found: returns (item, rest of stream, eof-flag).  The eof flag is set
exactly when extraction stopped because the stream ran out rather than
because the delimiter was found (the delimiter is consumed, not stored). -/
def getlineRun (delim : Char) : List Char → List Char × List Char × Bool
  | [] => ([], [], true)
  | c :: cs =>
    if c = delim then ([], cs, false)
    else
      let r := getlineRun delim cs
      (c :: r.1, r.2.1, r.2.2)

/-- The request splitter of IntrusiveConnection::connect
(IntrusiveConnection.h lines 206-215):

    std::queue<std::string> Buffer;
    std::stringstream IS(Request);
    std::string Item;
    while (std::getline(IS, Item, Delimiter) && !IS.eof())
      Buffer.push(Item);
    if (!Item.empty())
      Buffer.push(Item);

std::getline fails (and leaves Item cleared) exactly when the remaining
stream is empty; on success with the eof bit set the loop body is skipped
and the trailing fragment is pushed after the loop when non-empty. -/
def splitChunkF (delim : Char) : Nat → List Char → List (List Char)
  | _, [] => []
  | 0, _ :: _ => []
  | fuel + 1, c :: cs =>
    let r := getlineRun delim (c :: cs)
    if r.2.2 then [r.1]
    else r.1 :: splitChunkF delim fuel r.2.1

/-- The splitter itself; the fuel (one unit per getline call is enough,
because each successful non-eof getline consumes at least the delimiter)
only serves to make the recursion structural. -/
def splitChunk (delim : Char) (s : List Char) : List (List Char) :=
  splitChunkF delim s.length s

/-- The IntrusiveConnection handle held by the worker thread.  The only
observable content of the handle is whether its mStatus pointer is null
(IntrusiveConnection.h line 246); the pointed-to Status block is passed
around explicitly. -/
structure IntrusiveConnection where
  mStatus : Bool
deriving DecidableEq

/-- Move constructor (IntrusiveConnection.h lines 93-95): the target takes
over the handle, the source is left with a null mStatus.  Result is
(constructed object, moved-from object). -/
def IntrusiveConnection.moveConstruct (c : IntrusiveConnection) :
    IntrusiveConnection × IntrusiveConnection :=
  ({ mStatus := c.mStatus }, { mStatus := false })

/-- Move assignment (IntrusiveConnection.h lines 98-103); self is true for
self-assignment (this == &C), in which case nothing happens.  Result is
(assigned-to object, moved-from object). -/
def IntrusiveConnection.moveAssign (self : Bool)
    (dst src : IntrusiveConnection) : IntrusiveConnection × IntrusiveConnection :=
  if self then (dst, src)
  else ({ mStatus := src.mStatus }, { mStatus := false })

/-- Destructor (IntrusiveConnection.h lines 106-114): with a null handle it
does nothing; otherwise it sets mReject under the send mutex and notifies
the send condition. -/
def IntrusiveConnection.destruct (c : IntrusiveConnection) (st : Status) :
    Status :=
  if c.mStatus then { st with mReject := true } else st

/-- Everything observable about one answer call. -/
structure AnswerResult where
  conn : IntrusiveConnection
  status : Status
  ret : Bool
  invoked : List (List Char)
deriving DecidableEq

/-- answer(F) (IntrusiveConnection.h lines 123-154), evaluated at the moment
the wait on mReceiveEvent returns (the wait predicate mIsReceive || mClose
is a hypothesis of the theorems about the non-null case; with a null
mStatus the function returns false immediately without waiting).
`invoked` records the arguments F was invoked with. -/
def IntrusiveConnection.answer (c : IntrusiveConnection)
    (F : List Char → List Char) (st : Status) : AnswerResult :=
  if c.mStatus = false then ⟨c, st, false, []⟩
  else
    let close := st.mClose
    let data := st.mReceiveData
    let st₁ := { st with mReceiveData := [], mIsReceive := false }
    if close then
      ⟨{ mStatus := false }, { st₁ with mReject := true }, false, []⟩
    else
      ⟨c, { st₁ with mSendData := F data, mIsSend := true }, true, [data]⟩

/-- The network connection descriptor of bcl::net (CSocket.h lines 69-93).
PortT is a C int, modelled as Int. -/
structure Connection where
  mServerAddress : List Char := []
  mServerPort : Int := 0
  mClientAddress : List Char := []
  mClientPort : Int := 0
deriving DecidableEq

/-- The two-argument constructor (CSocket.h lines 71-72): client fields keep
their defaults (empty address, port 0).  This is the descriptor carried by
pre-connection events and by the Listen event (CSocket.cpp lines 322-330). -/
def Connection.mkServer (a : List Char) (p : Int) : Connection :=
  { mServerAddress := a, mServerPort := p }

/-- Connection::isActive (CSocket.h line 86). -/
def Connection.isActive (c : Connection) : Bool :=
  c.mServerPort > 0 && c.mClientPort > 0

/-- The SocketStatus enum (CSocket.h lines 47-65). -/
inductive SocketStatus
  | UnknownError
  | InitializeError
  | HostnameError
  | ServerAddressError
  | CreateError
  | OptionError
  | BindError
  | ListenError
  | AcceptError
  | ReceiveError
  | SendError
  | CloseError
  | Listen
  | Accept
  | Receive
  | Send
  | Close
deriving DecidableEq

/-- What one iteration of the receive loop of SocketImp::run observes
(CSocket.cpp lines 223-242): a failed recv, a zero-length read, or a chunk
of data; for a chunk, setsOnClose records whether some send performed by
the receive callbacks failed, flagging State::OnClose
(CSocket.cpp lines 203-210). -/
inductive RecvEvent
  | err
  | eof
  | chunk (setsOnClose : Bool)
deriving DecidableEq

/-- SocketImp::run (CSocket.cpp lines 220-256) restricted to its
close-relevant behaviour.  closeOk is the outcome of the platform close
call inside closeSocket; the result is
some (flags passed to every registered closed callback, return code of run)
when the loop terminates, and none when the given event list runs out
with the connection still open.  closeSocket(IsOk) downgrades IsOk to
false when the platform close fails, reports CloseError or Close, and then
invokes every registered closed callback once with the final flag; the
returned list has one entry per closeSocket call. -/
def SocketImp.run (closeOk : Bool) : List RecvEvent → Option (List Bool × Nat)
  | [] => none
  | .err :: _ => some ([false && closeOk], 1)
  | .eof :: _ => some ([true && closeOk], 0)
  | .chunk true :: _ => some ([false && closeOk], 1)
  | .chunk false :: rest => SocketImp.run closeOk rest

/-- Outcomes of the platform calls performed during the setup phase of
bcl::net::startServer (CSocket.cpp lines 268-330): initialize,
getAddressInfo, createSocket, setSocketOptions, bindSocket, getsockname,
listen, plus the outcome of closeSocket inside closeAndLog. -/
structure SetupOracle where
  initOk : Bool
  hostOk : Bool
  createOk : Bool
  optOk : Bool
  bindOk : Bool
  nameOk : Bool
  listenOk : Bool
  closeOk : Bool
deriving DecidableEq

/-- closeAndLog (CSocket.cpp lines 276-281). -/
def closeAndLog (ok : Bool) : List SocketStatus :=
  if ok then [.Close] else [.CloseError]

/-- What one iteration of the accept loop observes (CSocket.cpp lines
358-385): accept fails; accept succeeds but getsockname on the accepted
socket fails (with the given closeSocket outcome); or both succeed. -/
inductive AcceptOutcome
  | acceptFail
  | nameFail (closeOk : Bool)
  | ok
deriving DecidableEq

/-- Status events emitted by the listening loop of startServer
(CSocket.cpp lines 351-386), one AcceptOutcome per iteration. -/
def loopEvents : List AcceptOutcome → List SocketStatus
  | [] => []
  | .acceptFail :: rest => .AcceptError :: loopEvents rest
  | .nameFail c :: rest => .ServerAddressError :: (closeAndLog c ++ loopEvents rest)
  | .ok :: rest => .Accept :: loopEvents rest

/-- bcl::net::startServer (CSocket.cpp lines 268-389): the sequence of
status events reported through the status callback, paired with whether
the listening loop was reached (false means the function returned during
setup).  The function never throws; every failure is turned into a status
event.  The real loop is infinite; the model reports the events for the
given finite list of accept outcomes. -/
def startServer (o : SetupOracle) (accepts : List AcceptOutcome) :
    List SocketStatus × Bool :=
  if !o.initOk then ([.InitializeError], false)
  else if !o.hostOk then ([.HostnameError], false)
  else if !o.createOk then ([.CreateError], false)
  else if !o.optOk then (.OptionError :: closeAndLog o.closeOk, false)
  else if !o.bindOk then (.BindError :: closeAndLog o.closeOk, false)
  else if !o.nameOk then (.ServerAddressError :: closeAndLog o.closeOk, false)
  else if !o.listenOk then (.ListenError :: closeAndLog o.closeOk, false)
  else (.Listen :: loopEvents accepts, true)

/-- The setup-error statuses of the claim's first class: initialize,
hostname resolution, socket create, option, bind, server-address query,
listen. -/
def isSetupError : SocketStatus → Bool
  | .InitializeError | .HostnameError | .CreateError | .OptionError
  | .BindError | .ServerAddressError | .ListenError => true
  | _ => false

/-- setupOk is true when every setup step of startServer succeeds. -/
def setupOk (o : SetupOracle) : Bool :=
  o.initOk && o.hostOk && o.createOk && o.optOk && o.bindOk && o.nameOk &&
    o.listenOk

/-- Normalization of ConnectionMaxNumber (CSocket.cpp lines 332-333):
0 or a value above the table's max_size means max_size. -/
def normCap (maxSize cap : Nat) : Nat :=
  if cap = 0 || decide (maxSize < cap) then maxSize else cap

/-- sanitizeConnections (CSocket.cpp lines 340-350): erase the table
entries whose worker future is ready; returns the new table and whether
anything was removed.  ready is the readiness oracle for the worker
futures; table entries are the raw connection handles (keys). -/
def sanitizeConnections (ready : Nat → Bool) (tbl : List Nat) :
    List Nat × Bool :=
  let t := tbl.filter (fun k => !ready k)
  (t, decide (t.length ≠ tbl.length))

/-- The reap phase at the head of each accept-loop iteration
(CSocket.cpp lines 352-357).  When the table is at capacity the code
sleeps and re-sanitizes until an entry is removed; under a fixed readiness
oracle this blocks forever when nothing is ready, modelled as none. -/
def reapPhase (cap : Nat) (ready : Nat → Bool) (tbl : List Nat) :
    Option (List Nat) :=
  if tbl.length = cap then
    let t := (sanitizeConnections ready tbl).1
    if t.length = tbl.length then none else some t
  else if cap / 2 < tbl.length then some (sanitizeConnections ready tbl).1
  else some tbl

/-- ActiveSockets.emplace keyed by the raw handle
(CSocket.cpp lines 378-385): a new entry is added unless the key is
already present (a reused handle reuses its slot). -/
def acceptInsert (tbl : List Nat) (fd : Nat) : List Nat :=
  if fd ∈ tbl then tbl else tbl ++ [fd]

/-- One full iteration of the accept loop that reaches a successful
accept: reap phase, then registration of the accepted handle. -/
def loopIter (cap : Nat) (ready : Nat → Bool) (tbl : List Nat) (fd : Nat) :
    Option (List Nat) :=
  (reapPhase cap ready tbl).map (fun t => acceptInsert t fd)

/-- Iterated accept loop: each element of iters provides the readiness
oracle observed during that iteration and the accepted handle. -/
def serverIters (cap : Nat) :
    List ((Nat → Bool) × Nat) → List Nat → Option (List Nat)
  | [], tbl => some tbl
  | (rd, fd) :: rest, tbl =>
    match loopIter cap rd tbl fd with
    | none => none
    | some t => serverIters cap rest t

/- The interleaving semantics of one receive-callback invocation
   (IntrusiveConnection.h lines 201-242) running against the worker
   thread executing the usage pattern of the file header comment
   (lines 40-47): call answer in a loop while it succeeds, at most a
   fixed number of times (the budget), then return, running the
   destructor (lines 106-114).  Each program counter value corresponds
   to a critical section or a lock-free statement of the source; a
   condition wait is a step enabled only when its predicate holds
   (wait with a predicate re-checks the predicate under the lock, so
   spurious wakeups are invisible). -/

/-- Program counter of the network side (the receive callback). -/
inductive NetPC
  /-- Callback entry for a chunk: the *Reject check and the split
  (lines 202-215). -/
  | start (chunk : List Char)
  /-- Head of while (!Buffer.empty()) (line 216). -/
  | loop
  /-- Waiting on mSendEvent for mIsSend || mReject (lines 226-235). -/
  | waitSend
  /-- About to S->send(Data + Delimiter) and check *Reject
  (lines 236-240); the payload is Data and the *Reject value. -/
  | sendResp (data : List Char) (rej : Bool)
  /-- Callback returned. -/
  | done
deriving DecidableEq

/-- Local state of the network side. -/
structure NetState where
  pc : NetPC
  /-- The local std::queue<std::string> Buffer. -/
  buffer : List (List Char) := []
  /-- The heap-allocated bool *Reject shared between callbacks. -/
  heapReject : Bool := false
  /-- Log of the payloads passed to S->send, in order. -/
  sent : List (List Char) := []
deriving DecidableEq

/-- Program counter of the worker thread. -/
inductive WPC
  /-- User loop head, about to call answer; the budget is the number of
  answer calls the user function still intends to make before
  returning. -/
  | call (budget : Nat)
  /-- Inside answer, waiting on mReceiveEvent for mIsReceive || mClose
  (lines 129-136). -/
  | waitRecv (budget : Nat)
  /-- Request read; about to run F and publish the response
  (lines 146-152). -/
  | compute (budget : Nat) (data : List Char)
  /-- Close observed: set mReject, detach, return false (lines 137-145). -/
  | rejecting
  /-- User function returning: the destructor of the connection handle. -/
  | dtor
  /-- Worker thread finished. -/
  | dead
deriving DecidableEq

/-- Local state of the worker thread. -/
structure WState where
  pc : WPC
  /-- Whether mStatus has been set to nullptr (line 143). -/
  detached : Bool := false
  /-- The arguments F has been invoked with, in order. -/
  log : List (List Char) := []
deriving DecidableEq

/-- A configuration of the joint system. -/
structure Config where
  st : Status
  net : NetState
  w : WState
deriving DecidableEq

/-- One step of the network side.  A blocked or finished thread leaves the
configuration unchanged. -/
def netStep (delim : Char) (c : Config) : Config :=
  match c.net.pc with
  | .start chunk =>
    if c.net.heapReject then
      { c with net := { c.net with
          pc := .done,
          sent := c.net.sent ++ [rejectCode ++ [delim]] } }
    else
      { c with net := { c.net with
          pc := .loop,
          buffer := splitChunk delim chunk } }
  | .loop =>
    match c.net.buffer with
    | [] => { c with net := { c.net with pc := .done } }
    | r :: rest =>
      { c with
        st := { c.st with mIsReceive := true, mReceiveData := r },
        net := { c.net with pc := .waitSend, buffer := rest } }
  | .waitSend =>
    if c.st.mIsSend || c.st.mReject then
      { c with
        st := { c.st with mSendData := [], mIsSend := false },
        net := { c.net with
          pc := .sendResp (if c.st.mIsSend then c.st.mSendData else rejectCode)
                  c.st.mReject,
          heapReject := c.st.mReject } }
    else c
  | .sendResp data rej =>
    { c with net := { c.net with
        pc := if rej then .done else .loop,
        sent := c.net.sent ++ [data ++ [delim]] } }
  | .done => c

/-- One step of the worker thread. -/
def wStep (F : List Char → List Char) (c : Config) : Config :=
  match c.w.pc with
  | .call budget =>
    match budget with
    | 0 => { c with w := { c.w with pc := .dtor } }
    | _ + 1 =>
      if c.w.detached then { c with w := { c.w with pc := .dtor } }
      else { c with w := { c.w with pc := .waitRecv budget } }
  | .waitRecv budget =>
    if c.st.mIsReceive || c.st.mClose then
      let st₁ := { c.st with mReceiveData := [], mIsReceive := false }
      if c.st.mClose then
        { c with st := st₁, w := { c.w with pc := .rejecting } }
      else
        { c with
          st := st₁,
          w := { c.w with pc := .compute (budget - 1) c.st.mReceiveData } }
    else c
  | .compute budget data =>
    { c with
      st := { c.st with mSendData := F data, mIsSend := true },
      w := { c.w with pc := .call budget, log := c.w.log ++ [data] } }
  | .rejecting =>
    { c with
      st := { c.st with mReject := true },
      w := { c.w with pc := .dead, detached := true } }
  | .dtor =>
    if c.w.detached then { c with w := { c.w with pc := .dead } }
    else
      { c with
        st := { c.st with mReject := true },
        w := { c.w with pc := .dead } }
  | .dead => c

/-- One scheduled step: true runs the network side, false the worker. -/
def step (F : List Char → List Char) (delim : Char) (c : Config)
    (who : Bool) : Config :=
  if who then netStep delim c else wStep F c

/-- Run under a schedule. -/
def run (F : List Char → List Char) (delim : Char) (c : Config)
    (sched : List Bool) : Config :=
  sched.foldl (step F delim) c

/-- Initial configuration: fresh Status (connect line 178), the receive
callback entered with the given chunk, the worker about to make budget
answer calls. -/
def initConfig (chunk : List Char) (budget : Nat) : Config :=
  { st := {},
    net := { pc := .start chunk },
    w := { pc := .call budget } }

/-- The responses the network side sends for the requests in p:
handler output plus the delimiter (line 236). -/
def sentOf (F : List Char → List Char) (delim : Char)
    (p : List (List Char)) : List (List Char) :=
  p.map (fun r => F r ++ [delim])

/-- Worker state when the worker is between requests: at the user loop
head (b = true) or already blocked inside answer (b = false). -/
def idleW (m : Nat) (b : Bool) (lg : List (List Char)) : WState :=
  { pc := if b then .call m else .waitRecv m, detached := false, log := lg }

/-- Reachable shape: callback not yet past the *Reject check. -/
def cfgStart (chunk : List Char) (m : Nat) (b : Bool) : Config :=
  { st := {}, net := { pc := .start chunk }, w := idleW m b [] }

/-- Reachable shape: p answered and sent, q still queued, loop head. -/
def cfgLoop (F : List Char → List Char) (delim : Char)
    (p q : List (List Char)) (m : Nat) (b : Bool) : Config :=
  { st := {},
    net := { pc := .loop, buffer := q, sent := sentOf F delim p },
    w := idleW m b p }

/-- Reachable shape: request r published to the Status block, worker has
not yet picked it up, network side blocked on the send condition. -/
def cfgPub (F : List Char → List Char) (delim : Char)
    (p : List (List Char)) (r : List Char) (q : List (List Char))
    (m : Nat) (b : Bool) : Config :=
  { st := { mIsReceive := true, mReceiveData := r },
    net := { pc := .waitSend, buffer := q, sent := sentOf F delim p },
    w := idleW m b p }

/-- Reachable shape: worker has read r out of the Status block and is
about to run the handler and publish its response. -/
def cfgCompute (F : List Char → List Char) (delim : Char)
    (p : List (List Char)) (r : List Char) (q : List (List Char))
    (m : Nat) : Config :=
  { st := {},
    net := { pc := .waitSend, buffer := q, sent := sentOf F delim p },
    w := { pc := .compute m r, log := p } }

/-- Reachable shape: response for r published, network side not yet
woken. -/
def cfgResp (F : List Char → List Char) (delim : Char)
    (p : List (List Char)) (r : List Char) (q : List (List Char))
    (m : Nat) (b : Bool) : Config :=
  { st := { mIsSend := true, mSendData := F r },
    net := { pc := .waitSend, buffer := q, sent := sentOf F delim p },
    w := idleW m b (p ++ [r]) }

/-- Reachable shape: network side consumed the response for r and is about
to put it on the socket. -/
def cfgSend (F : List Char → List Char) (delim : Char)
    (p : List (List Char)) (r : List Char) (q : List (List Char))
    (m : Nat) (b : Bool) : Config :=
  { st := {},
    net := { pc := .sendResp (F r) false, buffer := q, sent := sentOf F delim p },
    w := idleW m b (p ++ [r]) }

/-- Reachable shape: the whole chunk is processed and the callback has
returned. -/
def cfgDone (F : List Char → List Char) (delim : Char)
    (rs : List (List Char)) (m : Nat) (b : Bool) : Config :=
  { st := {},
    net := { pc := .done, buffer := [], sent := sentOf F delim rs },
    w := idleW m b rs }

/-- Inductive invariant for a run in which the worker's budget exceeds the
number of requests in the chunk (rs is the split of the chunk): the joint
system is always in one of the seven shapes above, and the counters tie
the worker's remaining budget to the number of requests already
answered. -/
def HInv (F : List Char → List Char) (delim : Char) (chunk : List Char)
    (rs : List (List Char)) (B : Nat) (c : Config) : Prop :=
  (∃ b, c = cfgStart chunk B b)
  ∨ (∃ p q m b, rs = p ++ q ∧ m + p.length = B ∧ c = cfgLoop F delim p q m b)
  ∨ (∃ p r q m b, rs = p ++ r :: q ∧ m + p.length = B ∧
       c = cfgPub F delim p r q m b)
  ∨ (∃ p r q m, rs = p ++ r :: q ∧ m + p.length + 1 = B ∧
       c = cfgCompute F delim p r q m)
  ∨ (∃ p r q m b, rs = p ++ r :: q ∧ m + p.length + 1 = B ∧
       c = cfgResp F delim p r q m b)
  ∨ (∃ p r q m b, rs = p ++ r :: q ∧ m + p.length + 1 = B ∧
       c = cfgSend F delim p r q m b)
  ∨ (∃ m b, m + rs.length = B ∧ c = cfgDone F delim rs m b)

/- Invariant for a run in which the worker thread returns before it
   answers anything (budget 0): the user function returns immediately and
   the destructor sets mReject. -/

/-- The three worker states of such a run: about to return, running the
destructor, or finished; rej is the value of mReject in that state. -/
def W0 (wpc : WPC) (rej : Bool) : Prop :=
  (wpc = .call 0 ∧ rej = false) ∨ (wpc = .dtor ∧ rej = false)
    ∨ (wpc = .dead ∧ rej = true)

/-- Reachable shape: callback entry. -/
def c3cfgStart (chunk : List Char) (wpc : WPC) (rej : Bool) : Config :=
  { st := { mReject := rej }, net := { pc := .start chunk },
    w := { pc := wpc } }

/-- Reachable shape: chunk split, nothing dequeued. -/
def c3cfgLoop (rs : List (List Char)) (wpc : WPC) (rej : Bool) : Config :=
  { st := { mReject := rej }, net := { pc := .loop, buffer := rs },
    w := { pc := wpc } }

/-- Reachable shape: first request published, network side waiting on the
send condition; nobody will ever answer. -/
def c3cfgPub (r : List Char) (rest : List (List Char)) (wpc : WPC)
    (rej : Bool) : Config :=
  { st := { mIsReceive := true, mReceiveData := r, mReject := rej },
    net := { pc := .waitSend, buffer := rest }, w := { pc := wpc } }

/-- Reachable shape: reject observed, REJECT about to be sent. -/
def c3cfgRej (r : List Char) (rest : List (List Char)) (wpc : WPC) :
    Config :=
  { st := { mIsReceive := true, mReceiveData := r, mReject := true },
    net := { pc := .sendResp rejectCode true, buffer := rest,
             heapReject := true },
    w := { pc := wpc } }

/-- Reachable shape: single REJECT sent, loop broken with the remaining
requests still queued. -/
def c3cfgDone (delim : Char) (r : List Char) (rest : List (List Char))
    (wpc : WPC) : Config :=
  { st := { mIsReceive := true, mReceiveData := r, mReject := true },
    net := { pc := .done, buffer := rest, heapReject := true,
             sent := [rejectCode ++ [delim]] },
    w := { pc := wpc } }

/-- Inductive invariant for the budget-0 run on a chunk splitting into
r :: rest. -/
def CInv (delim : Char) (chunk : List Char) (r : List Char)
    (rest : List (List Char)) (c : Config) : Prop :=
  (∃ wpc rej, W0 wpc rej ∧ c = c3cfgStart chunk wpc rej)
  ∨ (∃ wpc rej, W0 wpc rej ∧ c = c3cfgLoop (r :: rest) wpc rej)
  ∨ (∃ wpc rej, W0 wpc rej ∧ c = c3cfgPub r rest wpc rej)
  ∨ (∃ wpc, W0 wpc true ∧ c = c3cfgRej r rest wpc)
  ∨ (∃ wpc, W0 wpc true ∧ c = c3cfgDone delim r rest wpc)


theorem getlineRun_length (delim : Char) :
    ∀ s : List Char, (getlineRun delim s).2.2 = false →
      (getlineRun delim s).2.1.length < s.length := by
  intro s
  induction s with
  | nil => simp [getlineRun]
  | cons c cs ih =>
    by_cases hc : c = delim
    · simp [getlineRun, hc]
    · intro h
      simp only [getlineRun, if_neg hc] at h ⊢
      have := ih h
      have hl : (c :: cs).length = cs.length + 1 := rfl
      omega


theorem splitChunkF_mono (delim : Char) :
    ∀ fuel₁ fuel₂ s, s.length ≤ fuel₁ → s.length ≤ fuel₂ →
      splitChunkF delim fuel₁ s = splitChunkF delim fuel₂ s := by
  intro fuel₁
  induction fuel₁ with
  | zero =>
    intro fuel₂ s h₁ _
    have : s = [] := List.eq_nil_of_length_eq_zero (Nat.le_zero.mp h₁)
    subst this
    cases fuel₂ <;> rfl
  | succ f ih =>
    intro fuel₂ s h₁ h₂
    cases s with
    | nil => cases fuel₂ <;> rfl
    | cons c cs =>
      cases fuel₂ with
      | zero => simp at h₂
      | succ f₂ =>
        show (let r := getlineRun delim (c :: cs);
              if r.2.2 then [r.1] else r.1 :: splitChunkF delim f r.2.1)
           = (let r := getlineRun delim (c :: cs);
              if r.2.2 then [r.1] else r.1 :: splitChunkF delim f₂ r.2.1)
        by_cases he : (getlineRun delim (c :: cs)).2.2
        · simp [he]
        · have hlen := getlineRun_length delim (c :: cs)
            (Bool.not_eq_true _ ▸ (by simpa using he))
          have hc : (c :: cs).length = cs.length + 1 := rfl
          simp only [he, if_neg, Bool.false_eq_true, not_false_eq_true]
          rw [ih f₂ _ (by omega) (by omega)]

/-- The recurrence actually executed by the source loop. -/
theorem splitChunk_cons (delim : Char) (c : Char) (cs : List Char) :
    splitChunk delim (c :: cs)
      = (let r := getlineRun delim (c :: cs);
         if r.2.2 then [r.1] else r.1 :: splitChunk delim r.2.1) := by
  show splitChunkF delim (cs.length + 1) (c :: cs) = _
  by_cases he : (getlineRun delim (c :: cs)).2.2
  · simp [splitChunkF, he]
  · have hlen := getlineRun_length delim (c :: cs)
      (Bool.not_eq_true _ ▸ (by simpa using he))
    have hc : (c :: cs).length = cs.length + 1 := rfl
    simp only [splitChunkF, he, if_neg, Bool.false_eq_true, not_false_eq_true,
      splitChunk]
    rw [splitChunkF_mono delim cs.length (getlineRun delim (c :: cs)).2.1.length
      _ (by omega) (by omega)]

example : splitChunk '$' "foo$bar$baz".toList
    = ["foo".toList, "bar".toList, "baz".toList] := by decide
example : splitChunk '$' "foo$bar$".toList
    = ["foo".toList, "bar".toList] := by decide
example : splitChunk (Char.ofNat 0) "foo$bar".toList = ["foo$bar".toList] := by
  decide
example : splitChunk (Char.ofNat 0) ([] : List Char) = [] := by decide
example : splitChunk '$' "a$$b".toList
    = ["a".toList, [], "b".toList] := by decide


theorem hInv_step (F : List Char → List Char) (delim : Char)
    (chunk : List Char) (rs : List (List Char)) (B : Nat)
    (hsp : splitChunk delim chunk = rs) (hB : rs.length + 1 ≤ B)
    (c : Config) (h : HInv F delim chunk rs B c) (who : Bool) :
    HInv F delim chunk rs B (step F delim c who) := by
  rcases h with ⟨b, rfl⟩ | ⟨p, q, m, b, hrs, hm, rfl⟩
    | ⟨p, r, q, m, b, hrs, hm, rfl⟩ | ⟨p, r, q, m, hrs, hm, rfl⟩
    | ⟨p, r, q, m, b, hrs, hm, rfl⟩ | ⟨p, r, q, m, b, hrs, hm, rfl⟩
    | ⟨m, b, hm, rfl⟩
  · -- cfgStart
    cases who with
    | true =>
      refine Or.inr (Or.inl ⟨[], rs, B, b, by simp, by simp, ?_⟩)
      simp [step, netStep, cfgStart, cfgLoop, idleW, sentOf, hsp]
    | false =>
      cases b with
      | true =>
        obtain ⟨m', rfl⟩ : ∃ k, B = k + 1 := ⟨B - 1, by omega⟩
        exact Or.inl ⟨false, by simp [step, wStep, cfgStart, idleW]⟩
      | false =>
        exact Or.inl ⟨false, by simp [step, wStep, cfgStart, idleW]⟩
  · -- cfgLoop
    have hlen : rs.length = p.length + q.length := by
      rw [hrs]; simp
    cases who with
    | true =>
      cases q with
      | nil =>
        simp only [List.append_nil] at hrs
        subst hrs
        refine Or.inr (Or.inr (Or.inr (Or.inr (Or.inr (Or.inr
          ⟨m, b, by omega, ?_⟩)))))
        simp [step, netStep, cfgLoop, cfgDone, idleW]
      | cons r rest =>
        refine Or.inr (Or.inr (Or.inl ⟨p, r, rest, m, b, hrs, hm, ?_⟩))
        simp [step, netStep, cfgLoop, cfgPub, idleW]
    | false =>
      cases b with
      | true =>
        obtain ⟨m', rfl⟩ : ∃ k, m = k + 1 := ⟨m - 1, by omega⟩
        refine Or.inr (Or.inl ⟨p, q, m' + 1, false, hrs, hm, ?_⟩)
        simp [step, wStep, cfgLoop, idleW]
      | false =>
        refine Or.inr (Or.inl ⟨p, q, m, false, hrs, hm, ?_⟩)
        simp [step, wStep, cfgLoop, idleW]
  · -- cfgPub
    have hlen : rs.length = p.length + q.length + 1 := by
      rw [hrs]; simp; omega
    cases who with
    | true =>
      refine Or.inr (Or.inr (Or.inl ⟨p, r, q, m, b, hrs, hm, ?_⟩))
      simp [step, netStep, cfgPub, idleW]
    | false =>
      cases b with
      | true =>
        obtain ⟨m', rfl⟩ : ∃ k, m = k + 1 := ⟨m - 1, by omega⟩
        refine Or.inr (Or.inr (Or.inl ⟨p, r, q, m' + 1, false, hrs, hm, ?_⟩))
        simp [step, wStep, cfgPub, idleW]
      | false =>
        refine Or.inr (Or.inr (Or.inr (Or.inl
          ⟨p, r, q, m - 1, hrs, by omega, ?_⟩)))
        simp [step, wStep, cfgPub, cfgCompute, idleW]
  · -- cfgCompute
    cases who with
    | true =>
      refine Or.inr (Or.inr (Or.inr (Or.inl ⟨p, r, q, m, hrs, hm, ?_⟩)))
      simp [step, netStep, cfgCompute, idleW]
    | false =>
      refine Or.inr (Or.inr (Or.inr (Or.inr (Or.inl
        ⟨p, r, q, m, true, hrs, hm, ?_⟩))))
      simp [step, wStep, cfgCompute, cfgResp, idleW]
  · -- cfgResp
    have hlen : rs.length = p.length + q.length + 1 := by
      rw [hrs]; simp; omega
    cases who with
    | true =>
      refine Or.inr (Or.inr (Or.inr (Or.inr (Or.inr (Or.inl
        ⟨p, r, q, m, b, hrs, hm, ?_⟩)))))
      simp [step, netStep, cfgResp, cfgSend, idleW]
    | false =>
      cases b with
      | true =>
        obtain ⟨m', rfl⟩ : ∃ k, m = k + 1 := ⟨m - 1, by omega⟩
        refine Or.inr (Or.inr (Or.inr (Or.inr (Or.inl
          ⟨p, r, q, m' + 1, false, hrs, hm, ?_⟩))))
        simp [step, wStep, cfgResp, idleW]
      | false =>
        refine Or.inr (Or.inr (Or.inr (Or.inr (Or.inl
          ⟨p, r, q, m, false, hrs, hm, ?_⟩))))
        simp [step, wStep, cfgResp, idleW]
  · -- cfgSend
    have hlen : rs.length = p.length + q.length + 1 := by
      rw [hrs]; simp; omega
    cases who with
    | true =>
      refine Or.inr (Or.inl ⟨p ++ [r], q, m, b, by simp [hrs], by simp; omega, ?_⟩)
      simp [step, netStep, cfgSend, cfgLoop, idleW, sentOf]
    | false =>
      cases b with
      | true =>
        obtain ⟨m', rfl⟩ : ∃ k, m = k + 1 := ⟨m - 1, by omega⟩
        refine Or.inr (Or.inr (Or.inr (Or.inr (Or.inr (Or.inl
          ⟨p, r, q, m' + 1, false, hrs, hm, ?_⟩)))))
        simp [step, wStep, cfgSend, idleW]
      | false =>
        refine Or.inr (Or.inr (Or.inr (Or.inr (Or.inr (Or.inl
          ⟨p, r, q, m, false, hrs, hm, ?_⟩)))))
        simp [step, wStep, cfgSend, idleW]
  · -- cfgDone
    cases who with
    | true =>
      refine Or.inr (Or.inr (Or.inr (Or.inr (Or.inr (Or.inr
        ⟨m, b, hm, ?_⟩)))))
      simp [step, netStep, cfgDone, idleW]
    | false =>
      cases b with
      | true =>
        obtain ⟨m', rfl⟩ : ∃ k, m = k + 1 := ⟨m - 1, by omega⟩
        refine Or.inr (Or.inr (Or.inr (Or.inr (Or.inr (Or.inr
          ⟨m' + 1, false, hm, ?_⟩)))))
        simp [step, wStep, cfgDone, idleW]
      | false =>
        refine Or.inr (Or.inr (Or.inr (Or.inr (Or.inr (Or.inr
          ⟨m, false, hm, ?_⟩)))))
        simp [step, wStep, cfgDone, idleW]

theorem hInv_run (F : List Char → List Char) (delim : Char)
    (chunk : List Char) (rs : List (List Char)) (B : Nat)
    (hsp : splitChunk delim chunk = rs) (hB : rs.length + 1 ≤ B)
    (sched : List Bool) (c : Config) (h : HInv F delim chunk rs B c) :
    HInv F delim chunk rs B (run F delim c sched) := by
  induction sched generalizing c with
  | nil => exact h
  | cons who rest ih =>
    exact ih _ (hInv_step F delim chunk rs B hsp hB c h who)

/-- C1: with a worker that makes more answer calls than the chunk holds
requests, in every interleaving: once the callback has finished the
handler has been invoked exactly once per request, in arrival order, and
the socket has received exactly the handler responses in order; moreover
whenever the network loop is at a point where it may dequeue the next
request (pc = loop), every previously dequeued request already has its
response on the socket, and while it waits for a response exactly one
request is unanswered. -/
theorem c1_single_outstanding (F : List Char → List Char) (delim : Char)
    (chunk : List Char) (B : Nat) (sched : List Bool)
    (hB : (splitChunk delim chunk).length + 1 ≤ B) :
    ((run F delim (initConfig chunk B) sched).net.pc = .done →
        (run F delim (initConfig chunk B) sched).w.log = splitChunk delim chunk
      ∧ (run F delim (initConfig chunk B) sched).net.sent
          = (splitChunk delim chunk).map (fun r => F r ++ [delim]))
  ∧ ((run F delim (initConfig chunk B) sched).net.pc = .loop →
      (run F delim (initConfig chunk B) sched).net.sent.length
        + (run F delim (initConfig chunk B) sched).net.buffer.length
        = (splitChunk delim chunk).length)
  ∧ ((run F delim (initConfig chunk B) sched).net.pc = .waitSend →
      (run F delim (initConfig chunk B) sched).net.sent.length
        + ((run F delim (initConfig chunk B) sched).net.buffer.length + 1)
        = (splitChunk delim chunk).length) := by
  have h0 : HInv F delim chunk (splitChunk delim chunk) B (initConfig chunk B) :=
    Or.inl ⟨true, rfl⟩
  have hinv := hInv_run F delim chunk (splitChunk delim chunk) B rfl hB sched
    (initConfig chunk B) h0
  rcases hinv with ⟨b, he⟩ | ⟨p, q, m, b, hrs, hm, he⟩
    | ⟨p, r, q, m, b, hrs, hm, he⟩ | ⟨p, r, q, m, hrs, hm, he⟩
    | ⟨p, r, q, m, b, hrs, hm, he⟩ | ⟨p, r, q, m, b, hrs, hm, he⟩
    | ⟨m, b, hm, he⟩ <;> rw [he]
  · exact ⟨fun hpc => by simp [cfgStart] at hpc,
      fun hpc => by simp [cfgStart] at hpc,
      fun hpc => by simp [cfgStart] at hpc⟩
  · refine ⟨fun hpc => by simp [cfgLoop] at hpc, fun _ => ?_,
      fun hpc => by simp [cfgLoop] at hpc⟩
    have := congrArg List.length hrs
    simp at this
    simp [cfgLoop, sentOf]
    omega
  · refine ⟨fun hpc => by simp [cfgPub] at hpc,
      fun hpc => by simp [cfgPub] at hpc, fun _ => ?_⟩
    have := congrArg List.length hrs
    simp at this
    simp [cfgPub, sentOf]
    omega
  · refine ⟨fun hpc => by simp [cfgCompute] at hpc,
      fun hpc => by simp [cfgCompute] at hpc, fun _ => ?_⟩
    have := congrArg List.length hrs
    simp at this
    simp [cfgCompute, sentOf]
    omega
  · refine ⟨fun hpc => by simp [cfgResp] at hpc,
      fun hpc => by simp [cfgResp] at hpc, fun _ => ?_⟩
    have := congrArg List.length hrs
    simp at this
    simp [cfgResp, sentOf]
    omega
  · exact ⟨fun hpc => by simp [cfgSend] at hpc,
      fun hpc => by simp [cfgSend] at hpc,
      fun hpc => by simp [cfgSend] at hpc⟩
  · refine ⟨fun _ => ⟨?_, ?_⟩, fun hpc => by simp [cfgDone] at hpc,
      fun hpc => by simp [cfgDone] at hpc⟩
    · simp [cfgDone, idleW]
    · simp [cfgDone, sentOf]

/-- Witness for c1_single_outstanding: chunk a$b, two requests, budget 3,
a concrete schedule that drives the system to completion. -/
theorem c1_single_outstanding_witness :
    (run (fun r => r) '$' (initConfig "a$b".toList 3)
        [true, true, false, false, false, true, true, true,
         false, false, false, true, true, true]).w.log
      = splitChunk '$' "a$b".toList
  ∧ (run (fun r => r) '$' (initConfig "a$b".toList 3)
        [true, true, false, false, false, true, true, true,
         false, false, false, true, true, true]).net.sent
      = (splitChunk '$' "a$b".toList).map (fun r => r ++ ['$']) :=
  (c1_single_outstanding (fun r => r) '$' "a$b".toList 3
    [true, true, false, false, false, true, true, true,
     false, false, false, true, true, true] (by decide)).1 (by decide)

theorem cInv_step (F : List Char → List Char) (delim : Char)
    (chunk : List Char) (r : List Char) (rest : List (List Char))
    (hsp : splitChunk delim chunk = r :: rest)
    (c : Config) (h : CInv delim chunk r rest c) (who : Bool) :
    CInv delim chunk r rest (step F delim c who) := by
  rcases h with ⟨wpc, rej, hw, rfl⟩ | ⟨wpc, rej, hw, rfl⟩
    | ⟨wpc, rej, hw, rfl⟩ | ⟨wpc, hw, rfl⟩ | ⟨wpc, hw, rfl⟩
  · -- c3cfgStart
    cases who with
    | true =>
      exact Or.inr (Or.inl ⟨wpc, rej, hw,
        by simp [step, netStep, c3cfgStart, c3cfgLoop, hsp]⟩)
    | false =>
      rcases hw with ⟨rfl, rfl⟩ | ⟨rfl, rfl⟩ | ⟨rfl, rfl⟩
      · exact Or.inl ⟨.dtor, false, Or.inr (Or.inl ⟨rfl, rfl⟩),
          by simp [step, wStep, c3cfgStart]⟩
      · exact Or.inl ⟨.dead, true, Or.inr (Or.inr ⟨rfl, rfl⟩),
          by simp [step, wStep, c3cfgStart]⟩
      · exact Or.inl ⟨.dead, true, Or.inr (Or.inr ⟨rfl, rfl⟩),
          by simp [step, wStep, c3cfgStart]⟩
  · -- c3cfgLoop
    cases who with
    | true =>
      exact Or.inr (Or.inr (Or.inl ⟨wpc, rej, hw,
        by simp [step, netStep, c3cfgLoop, c3cfgPub]⟩))
    | false =>
      rcases hw with ⟨rfl, rfl⟩ | ⟨rfl, rfl⟩ | ⟨rfl, rfl⟩
      · exact Or.inr (Or.inl ⟨.dtor, false, Or.inr (Or.inl ⟨rfl, rfl⟩),
          by simp [step, wStep, c3cfgLoop]⟩)
      · exact Or.inr (Or.inl ⟨.dead, true, Or.inr (Or.inr ⟨rfl, rfl⟩),
          by simp [step, wStep, c3cfgLoop]⟩)
      · exact Or.inr (Or.inl ⟨.dead, true, Or.inr (Or.inr ⟨rfl, rfl⟩),
          by simp [step, wStep, c3cfgLoop]⟩)
  · -- c3cfgPub
    cases who with
    | true =>
      rcases hw with ⟨rfl, rfl⟩ | ⟨rfl, rfl⟩ | ⟨rfl, rfl⟩
      · exact Or.inr (Or.inr (Or.inl ⟨.call 0, false, Or.inl ⟨rfl, rfl⟩,
          by simp [step, netStep, c3cfgPub]⟩))
      · exact Or.inr (Or.inr (Or.inl ⟨.dtor, false, Or.inr (Or.inl ⟨rfl, rfl⟩),
          by simp [step, netStep, c3cfgPub]⟩))
      · exact Or.inr (Or.inr (Or.inr (Or.inl ⟨.dead, Or.inr (Or.inr ⟨rfl, rfl⟩),
          by simp [step, netStep, c3cfgPub, c3cfgRej]⟩)))
    | false =>
      rcases hw with ⟨rfl, rfl⟩ | ⟨rfl, rfl⟩ | ⟨rfl, rfl⟩
      · exact Or.inr (Or.inr (Or.inl ⟨.dtor, false, Or.inr (Or.inl ⟨rfl, rfl⟩),
          by simp [step, wStep, c3cfgPub]⟩))
      · exact Or.inr (Or.inr (Or.inl ⟨.dead, true, Or.inr (Or.inr ⟨rfl, rfl⟩),
          by simp [step, wStep, c3cfgPub]⟩))
      · exact Or.inr (Or.inr (Or.inl ⟨.dead, true, Or.inr (Or.inr ⟨rfl, rfl⟩),
          by simp [step, wStep, c3cfgPub]⟩))
  · -- c3cfgRej
    rcases hw with ⟨_, h2⟩ | ⟨_, h2⟩ | ⟨rfl, _⟩
    · exact absurd h2 (by simp)
    · exact absurd h2 (by simp)
    cases who with
    | true =>
      exact Or.inr (Or.inr (Or.inr (Or.inr ⟨.dead,
        Or.inr (Or.inr ⟨rfl, rfl⟩),
        by simp [step, netStep, c3cfgRej, c3cfgDone]⟩)))
    | false =>
      exact Or.inr (Or.inr (Or.inr (Or.inl ⟨.dead,
        Or.inr (Or.inr ⟨rfl, rfl⟩), by simp [step, wStep, c3cfgRej]⟩)))
  · -- c3cfgDone
    rcases hw with ⟨_, h2⟩ | ⟨_, h2⟩ | ⟨rfl, _⟩
    · exact absurd h2 (by simp)
    · exact absurd h2 (by simp)
    cases who with
    | true =>
      exact Or.inr (Or.inr (Or.inr (Or.inr ⟨.dead,
        Or.inr (Or.inr ⟨rfl, rfl⟩), by simp [step, netStep, c3cfgDone]⟩)))
    | false =>
      exact Or.inr (Or.inr (Or.inr (Or.inr ⟨.dead,
        Or.inr (Or.inr ⟨rfl, rfl⟩), by simp [step, wStep, c3cfgDone]⟩)))

theorem cInv_run (F : List Char → List Char) (delim : Char)
    (chunk : List Char) (r : List Char) (rest : List (List Char))
    (hsp : splitChunk delim chunk = r :: rest)
    (sched : List Bool) (c : Config) (h : CInv delim chunk r rest c) :
    CInv delim chunk r rest (run F delim c sched) := by
  induction sched generalizing c with
  | nil => exact h
  | cons who tl ih =>
    exact ih _ (cInv_step F delim chunk r rest hsp c h who)

/-- C3 (amended): if the worker thread returns before answering any queued
request, then in every interleaving the handler is never invoked, and once
the callback finishes it has sent exactly one REJECT response (with the
delimiter appended) — for the first queued request only — and has stopped
processing the chunk, leaving the remaining queued requests unanswered. -/
theorem c3_worker_exit_reject (F : List Char → List Char) (delim : Char)
    (chunk : List Char) (r : List Char) (rest : List (List Char))
    (sched : List Bool)
    (hsp : splitChunk delim chunk = r :: rest) :
    (run F delim (initConfig chunk 0) sched).w.log = []
  ∧ ((run F delim (initConfig chunk 0) sched).net.pc = .done →
      (run F delim (initConfig chunk 0) sched).net.sent
        = [rejectCode ++ [delim]]
      ∧ (run F delim (initConfig chunk 0) sched).net.buffer = rest) := by
  have h0 : CInv delim chunk r rest (initConfig chunk 0) :=
    Or.inl ⟨.call 0, false, Or.inl ⟨rfl, rfl⟩, rfl⟩
  have hinv := cInv_run F delim chunk r rest hsp sched (initConfig chunk 0) h0
  rcases hinv with ⟨wpc, rej, _, he⟩ | ⟨wpc, rej, _, he⟩
    | ⟨wpc, rej, _, he⟩ | ⟨wpc, _, he⟩ | ⟨wpc, _, he⟩ <;> rw [he]
  · exact ⟨rfl, fun hpc => by simp [c3cfgStart] at hpc⟩
  · exact ⟨rfl, fun hpc => by simp [c3cfgLoop] at hpc⟩
  · exact ⟨rfl, fun hpc => by simp [c3cfgPub] at hpc⟩
  · exact ⟨rfl, fun hpc => by simp [c3cfgRej] at hpc⟩
  · exact ⟨rfl, fun _ => ⟨rfl, rfl⟩⟩

/-- Witness for c3_worker_exit_reject: chunk a$b$c, worker exits at once,
concrete schedule reaching completion. -/
theorem c3_worker_exit_reject_witness :
    (run (fun r => r) '$' (initConfig "a$b$c".toList 0)
        [false, false, true, true, true, true]).w.log = []
  ∧ ((run (fun r => r) '$' (initConfig "a$b$c".toList 0)
        [false, false, true, true, true, true]).net.pc = .done →
      (run (fun r => r) '$' (initConfig "a$b$c".toList 0)
          [false, false, true, true, true, true]).net.sent
        = [rejectCode ++ ['$']]
      ∧ (run (fun r => r) '$' (initConfig "a$b$c".toList 0)
          [false, false, true, true, true, true]).net.buffer
        = ["b".toList, "c".toList]) :=
  c3_worker_exit_reject (fun r => r) '$' "a$b$c".toList "a".toList
    ["b".toList, "c".toList] [false, false, true, true, true, true]
    (by decide)

/-- Counterexample to C3 as stated: with chunk a$b$c (three queued
requests) and a worker that exits before answering, a completed run has
sent exactly one REJECT — not one REJECT per outstanding request of the
chunk, as the claim demands ("for that request and for any subsequent
request in the same chunk"); requests b and c receive no response at
all. -/
theorem c3_counterexample :
    (run (fun r => r) '$' (initConfig "a$b$c".toList 0)
        [false, false, true, true, true, true]).net.pc = .done
  ∧ (run (fun r => r) '$' (initConfig "a$b$c".toList 0)
        [false, false, true, true, true, true]).net.sent
      = ["REJECT$".toList]
  ∧ (splitChunk '$' "a$b$c".toList).length = 3
  ∧ ¬ ((run (fun r => r) '$' (initConfig "a$b$c".toList 0)
        [false, false, true, true, true, true]).net.sent
      = List.replicate 3 "REJECT$".toList) := by
  refine ⟨by decide, by decide, by decide, by decide⟩

/-- C9: if the network side wakes from the send-condition wait with both a
published response (mIsSend) and the reject flag set, it sends the
published response, not the REJECT sentinel, and then stops processing the
chunk (the *Reject check after the send breaks the loop on the very next
step). -/
theorem c9_response_beats_reject (delim : Char) (c : Config)
    (hpc : c.net.pc = .waitSend) (hs : c.st.mIsSend = true)
    (hr : c.st.mReject = true) :
    (netStep delim c).net.pc = .sendResp c.st.mSendData true
  ∧ (netStep delim (netStep delim c)).net.pc = .done
  ∧ (netStep delim (netStep delim c)).net.sent
      = c.net.sent ++ [c.st.mSendData ++ [delim]] := by
  refine ⟨?_, ?_, ?_⟩ <;> simp [netStep, hpc, hs, hr]

/-- Witness for c9_response_beats_reject at a concrete configuration. -/
theorem c9_response_beats_reject_witness :
    (netStep '$'
        { st := { mSendData := "x".toList, mIsSend := true, mReject := true },
          net := { pc := .waitSend, sent := [] },
          w := { pc := .dead } }).net.pc
      = .sendResp "x".toList true
  ∧ (netStep '$' (netStep '$'
        { st := { mSendData := "x".toList, mIsSend := true, mReject := true },
          net := { pc := .waitSend, sent := [] },
          w := { pc := .dead } })).net.pc = .done
  ∧ (netStep '$' (netStep '$'
        { st := { mSendData := "x".toList, mIsSend := true, mReject := true },
          net := { pc := .waitSend, sent := [] },
          w := { pc := .dead } })).net.sent = ["x$".toList] :=
  c9_response_beats_reject '$'
    { st := { mSendData := "x".toList, mIsSend := true, mReject := true },
      net := { pc := .waitSend, sent := [] },
      w := { pc := .dead } } rfl rfl rfl

/-- getline never finds a delimiter that does not occur in the stream: the
whole remainder is consumed and the eof bit is hit. -/
theorem getlineRun_no_delim (delim : Char) :
    ∀ s : List Char, (∀ ch ∈ s, ch ≠ delim) →
      getlineRun delim s = (s, [], true) := by
  intro s
  induction s with
  | nil => intro _; rfl
  | cons c cs ih =>
    intro h
    have hc : c ≠ delim := h c (by simp)
    simp [getlineRun, hc, ih (fun ch hm => h ch (by simp [hm]))]

/-- C2 (amended): with delimiter $ the splitter used by connect yields
exactly foo, bar, baz from foo$bar$baz and exactly foo, bar from foo$bar$
(no trailing empty request); with the NUL delimiter every NON-EMPTY input
containing no NUL byte yields exactly one request equal to the whole
input.  (The empty input yields no request at all, see
c2_counterexample.) -/
theorem c2_delimiter_splitting (s : List Char) (hne : s ≠ [])
    (hnul : ∀ ch ∈ s, ch ≠ Char.ofNat 0) :
    splitChunk '$' "foo$bar$baz".toList
      = ["foo".toList, "bar".toList, "baz".toList]
  ∧ splitChunk '$' "foo$bar$".toList = ["foo".toList, "bar".toList]
  ∧ splitChunk (Char.ofNat 0) s = [s] := by
  refine ⟨by decide, by decide, ?_⟩
  obtain ⟨c, cs, rfl⟩ := List.exists_cons_of_ne_nil hne
  rw [splitChunk_cons]
  simp [getlineRun_no_delim (Char.ofNat 0) (c :: cs) hnul]

/-- Witness for c2_delimiter_splitting with NUL-free input foo$bar. -/
theorem c2_delimiter_splitting_witness :
    splitChunk (Char.ofNat 0) "foo$bar".toList = ["foo$bar".toList] :=
  (c2_delimiter_splitting "foo$bar".toList (by decide) (by decide)).2.2

/-- Counterexample to C2 as stated: the empty input contains no NUL byte,
yet with the NUL delimiter the splitter yields no request at all rather
than exactly one request equal to the whole input. -/
theorem c2_counterexample :
    splitChunk (Char.ofNat 0) [] = []
  ∧ ¬ (splitChunk (Char.ofNat 0) [] = [([] : List Char)]) := by
  exact ⟨by decide, by decide⟩

/-- C4: answer on an attached (Open) connection: (a) with the closing flag
clear and a request pending, it copies the request out, clears the pending
flag, invokes F exactly once with the request, publishes F's result as the
pending response and returns true; (b) if the closing flag is observed, it
sets the reject flag, detaches the handle and returns false without
invoking F.  (The mReceiveEvent wait predicate mIsReceive || mClose is the
hypothesis under which the body runs.) -/
theorem c4_answer_contract (F : List Char → List Char) (st : Status) :
    (st.mClose = false → st.mIsReceive = true →
      IntrusiveConnection.answer ⟨true⟩ F st
        = ⟨⟨true⟩,
           { st with mReceiveData := [], mIsReceive := false,
                     mSendData := F st.mReceiveData, mIsSend := true },
           true, [st.mReceiveData]⟩)
  ∧ (st.mClose = true →
      IntrusiveConnection.answer ⟨true⟩ F st
        = ⟨⟨false⟩,
           { st with mReceiveData := [], mIsReceive := false,
                     mReject := true },
           false, []⟩) := by
  constructor
  · intro h1 _
    simp [IntrusiveConnection.answer, h1]
  · intro h1
    simp [IntrusiveConnection.answer, h1]

/-- Witness for c4_answer_contract: both branches at concrete Status
values. -/
theorem c4_answer_contract_witness :
    IntrusiveConnection.answer ⟨true⟩ (fun r => r ++ "!".toList)
        { mReceiveData := "a".toList, mIsReceive := true }
      = ⟨⟨true⟩,
         { mReceiveData := [], mIsReceive := false,
           mSendData := "a!".toList, mIsSend := true },
         true, ["a".toList]⟩
  ∧ IntrusiveConnection.answer ⟨true⟩ (fun r => r ++ "!".toList)
        { mClose := true }
      = ⟨⟨false⟩, { mClose := true, mReject := true }, false, []⟩ :=
  ⟨(c4_answer_contract (fun r => r ++ "!".toList)
      { mReceiveData := "a".toList, mIsReceive := true }).1 rfl rfl,
   (c4_answer_contract (fun r => r ++ "!".toList)
      { mClose := true }).2 rfl⟩

/-- C10: a moved-from IntrusiveConnection is permanently inert: move
construction and (non-self) move assignment null the source's handle;
answer on a detached handle returns false immediately, leaves the shared
Status untouched, never invokes the handler and leaves the handle
detached; the destructor of a detached handle does not set the reject
flag. -/
theorem c10_moved_from_inert (c d : IntrusiveConnection) (st : Status)
    (F : List Char → List Char) :
    (IntrusiveConnection.moveConstruct c).2.mStatus = false
  ∧ (IntrusiveConnection.moveAssign false d c).2.mStatus = false
  ∧ IntrusiveConnection.answer ⟨false⟩ F st = ⟨⟨false⟩, st, false, []⟩
  ∧ IntrusiveConnection.destruct ⟨false⟩ st = st := by
  refine ⟨rfl, rfl, rfl, rfl⟩

/-- C8: a Connection descriptor is active exactly when both the server
port and the client port are strictly positive; a descriptor built with
server fields only — as carried by the Listen event — is never active,
because its client port defaults to 0. -/
theorem c8_isActive_iff (c : Connection) (a : List Char) (p : Int) :
    (c.isActive = true ↔ 0 < c.mServerPort ∧ 0 < c.mClientPort)
  ∧ (Connection.mkServer a p).isActive = false := by
  constructor
  · simp [Connection.isActive]
  · simp [Connection.isActive, Connection.mkServer]

/-- C6: whenever the per-connection engine loop terminates — failed recv,
zero-length read, or a send failure observed after a chunk's callbacks —
closeSocket runs exactly once, so every registered closed callback is
invoked exactly once, and the flag it receives is true exactly for the
clean termination: a zero-length read together with a successful platform
close. -/
theorem c6_closed_exactly_once (closeOk : Bool) (evs : List RecvEvent)
    (flags : List Bool) (code : Nat)
    (h : SocketImp.run closeOk evs = some (flags, code)) :
    flags.length = 1
  ∧ (flags = [true] ↔ (code = 0 ∧ closeOk = true)) := by
  induction evs with
  | nil => simp [SocketImp.run] at h
  | cons e rest ih =>
    cases e with
    | err =>
      simp only [SocketImp.run, Option.some.injEq, Prod.mk.injEq,
        Bool.false_and] at h
      obtain ⟨rfl, rfl⟩ := h
      simp
    | eof =>
      simp only [SocketImp.run, Option.some.injEq, Prod.mk.injEq,
        Bool.true_and] at h
      obtain ⟨rfl, rfl⟩ := h
      cases closeOk <;> simp
    | chunk sc =>
      cases sc with
      | true =>
        simp only [SocketImp.run, Option.some.injEq, Prod.mk.injEq,
          Bool.false_and] at h
        obtain ⟨rfl, rfl⟩ := h
        simp
      | false => exact ih (by simpa [SocketImp.run] using h)

/-- Witness for c6_closed_exactly_once: one data chunk then a clean eof
with a successful platform close. -/
theorem c6_closed_exactly_once_witness :
    ([true] : List Bool).length = 1
  ∧ (([true] : List Bool) = [true] ↔ ((0 : Nat) = 0 ∧ true = true)) :=
  c6_closed_exactly_once true [.chunk false, .eof] [true] 0 (by decide)

theorem acceptInsert_length (tbl : List Nat) (fd : Nat) :
    (acceptInsert tbl fd).length ≤ tbl.length + 1 := by
  unfold acceptInsert
  split <;> simp

theorem loopIter_bound (cap : Nat) (ready : Nat → Bool) (tbl : List Nat)
    (fd : Nat) (hle : tbl.length ≤ cap) (t : List Nat)
    (h : loopIter cap ready tbl fd = some t) : t.length ≤ cap := by
  have hf : (tbl.filter (fun k => !ready k)).length ≤ tbl.length :=
    List.length_filter_le _ _
  unfold loopIter reapPhase sanitizeConnections at h
  by_cases hc : tbl.length = cap
  · rw [if_pos hc] at h
    by_cases heq : (tbl.filter (fun k => !ready k)).length = tbl.length
    · rw [if_pos heq] at h
      simp at h
    · rw [if_neg heq] at h
      obtain rfl : acceptInsert (tbl.filter (fun k => !ready k)) fd = t := by
        simpa using h
      have := acceptInsert_length (tbl.filter (fun k => !ready k)) fd
      omega
  · rw [if_neg hc] at h
    have hlt : tbl.length < cap := lt_of_le_of_ne hle hc
    by_cases hh : cap / 2 < tbl.length
    · rw [if_pos hh] at h
      obtain rfl : acceptInsert (tbl.filter (fun k => !ready k)) fd = t := by
        simpa using h
      have := acceptInsert_length (tbl.filter (fun k => !ready k)) fd
      omega
    · rw [if_neg hh] at h
      obtain rfl : acceptInsert tbl fd = t := by simpa using h
      have := acceptInsert_length tbl fd
      omega

theorem serverIters_bound (cap : Nat)
    (iters : List ((Nat → Bool) × Nat)) :
    ∀ tbl res : List Nat, tbl.length ≤ cap →
      serverIters cap iters tbl = some res → res.length ≤ cap := by
  induction iters with
  | nil =>
    intro tbl res hle h
    obtain rfl : tbl = res := by simpa [serverIters] using h
    exact hle
  | cons it rest ih =>
    intro tbl res hle h
    obtain ⟨rd, fd⟩ := it
    cases hli : loopIter cap rd tbl fd with
    | none => simp [serverIters, hli] at h
    | some t =>
      simp only [serverIters, hli] at h
      exact ih t res (loopIter_bound cap rd tbl fd hle t hli) h

/-- C5: the active-connection table never exceeds the configured cap: the
normalization maps a positive cap within the table's max_size to itself
and 0 to max_size (unbounded up to the platform limit); one accept-loop
iteration preserves table-size ≤ cap; when the table is full and no
worker has finished, the loop blocks before accepting (the new connection
is not serviced by a worker until a reap frees a slot); and any number of
iterations keeps the table within the cap. -/
theorem c5_connection_cap (maxSize cap fd : Nat) (ready : Nat → Bool)
    (tbl : List Nat) (iters : List ((Nat → Bool) × Nat))
    (res : List Nat) :
    (0 < cap → cap ≤ maxSize → normCap maxSize cap = cap)
  ∧ normCap maxSize 0 = maxSize
  ∧ (tbl.length ≤ cap → ∀ t, loopIter cap ready tbl fd = some t →
      t.length ≤ cap)
  ∧ (tbl.length = cap → (∀ k ∈ tbl, ready k = false) →
      loopIter cap ready tbl fd = none)
  ∧ (tbl.length ≤ cap → serverIters cap iters tbl = some res →
      res.length ≤ cap) := by
  refine ⟨?_, ?_, ?_, ?_, ?_⟩
  · intro h1 h2
    unfold normCap
    have : ¬ (cap = 0 || decide (maxSize < cap)) = true := by
      simp
      omega
    rw [if_neg this]
  · simp [normCap]
  · intro hle t ht
    exact loopIter_bound cap ready tbl fd hle t ht
  · intro hc hn
    have hfe : tbl.filter (fun k => !ready k) = tbl :=
      List.filter_eq_self.mpr (fun a ha => by simp [hn a ha])
    unfold loopIter reapPhase sanitizeConnections
    rw [if_pos hc, hfe, if_pos rfl]
    rfl
  · intro hle h
    exact serverIters_bound cap iters tbl res hle h

/-- Witness for c5_connection_cap: cap 2, full table [1, 2]; with a ready
worker one iteration accepts handle 3 within the cap, with none ready the
iteration blocks. -/
theorem c5_connection_cap_witness :
    normCap 8 2 = 2
  ∧ normCap 8 0 = 8
  ∧ ([3] : List Nat).length ≤ 2
  ∧ loopIter 2 (fun _ => false) [1, 2] 3 = none
  ∧ ([3] : List Nat).length ≤ 2 := by
  have h1 := c5_connection_cap 8 2 3 (fun _ => true) [1, 2]
    [(fun _ => true, 3)] [3]
  have h2 := c5_connection_cap 8 2 3 (fun _ => false) [1, 2] [] []
  exact ⟨h1.1 (by decide) (by decide), h1.2.1,
    h1.2.2.1 (by decide) [3] (by decide),
    h2.2.2.2.1 rfl (fun k _ => rfl),
    h1.2.2.2.2 (by decide) (by decide)⟩

theorem loopEvents_accept_count (accepts : List AcceptOutcome) :
    (loopEvents accepts).countP (fun e => e == SocketStatus.Accept)
      = accepts.countP (fun a => a == AcceptOutcome.ok) := by
  induction accepts with
  | nil => rfl
  | cons a rest ih =>
    cases a with
    | acceptFail => simp [loopEvents, List.countP_cons, ih]
    | nameFail c =>
      cases c <;>
        simp [loopEvents, closeAndLog, List.countP_cons, List.countP_append,
          ih]
    | ok => simp [loopEvents, List.countP_cons, ih]

theorem loopEvents_acceptError_count (accepts : List AcceptOutcome) :
    (loopEvents accepts).countP (fun e => e == SocketStatus.AcceptError)
      = accepts.countP (fun a => a == AcceptOutcome.acceptFail) := by
  induction accepts with
  | nil => rfl
  | cons a rest ih =>
    cases a with
    | acceptFail => simp [loopEvents, List.countP_cons, ih]
    | nameFail c =>
      cases c <;>
        simp [loopEvents, closeAndLog, List.countP_cons, List.countP_append,
          ih]
    | ok => simp [loopEvents, List.countP_cons, ih]

/-- C7: error handling of startServer splits into two classes.  A failed
setup step makes startServer return before the listening loop (the
reported events do not depend on the accepted connections and contain
exactly one setup-error status, plus at most a Close/CloseError from the
cleanup); when setup succeeds the loop is entered (Listen reported) and
per-connection failures never stop it: every successful accept in the
oracle is reported Accept and every failed one AcceptError, regardless of
interleaved failures.  The model is a total function: no path throws. -/
theorem c7_error_taxonomy (o : SetupOracle) (accepts : List AcceptOutcome) :
    (startServer o accepts).2 = setupOk o
  ∧ (setupOk o = false →
      (startServer o accepts).1 = (startServer o []).1
      ∧ (startServer o accepts).1.countP (fun e => isSetupError e) = 1
      ∧ (startServer o accepts).1.countP
          (fun e => e == SocketStatus.Accept) = 0)
  ∧ (setupOk o = true →
      (startServer o accepts).1 = SocketStatus.Listen :: loopEvents accepts)
  ∧ (loopEvents accepts).countP (fun e => e == SocketStatus.Accept)
      = accepts.countP (fun a => a == AcceptOutcome.ok)
  ∧ (loopEvents accepts).countP (fun e => e == SocketStatus.AcceptError)
      = accepts.countP (fun a => a == AcceptOutcome.acceptFail) := by
  obtain ⟨i, ho, cr, op, bi, nm, li, cl⟩ := o
  refine ⟨?_, ?_, ?_, loopEvents_accept_count accepts,
    loopEvents_acceptError_count accepts⟩ <;>
  cases i <;> cases ho <;> cases cr <;> cases op <;> cases bi <;>
    cases nm <;> cases li <;> cases cl <;>
    simp [startServer, setupOk, closeAndLog, isSetupError,
      List.countP_cons]

/-- Witness for c7_error_taxonomy: a bind failure (setup class) and a
fully successful setup driving a loop with mixed accept outcomes. -/
theorem c7_error_taxonomy_witness :
    ((startServer ⟨true, true, true, true, false, true, true, true⟩
        [.acceptFail, .ok]).1
      = (startServer ⟨true, true, true, true, false, true, true, true⟩ []).1
    ∧ (startServer ⟨true, true, true, true, false, true, true, true⟩
        [.acceptFail, .ok]).1.countP (fun e => isSetupError e) = 1
    ∧ (startServer ⟨true, true, true, true, false, true, true, true⟩
        [.acceptFail, .ok]).1.countP
          (fun e => e == SocketStatus.Accept) = 0)
  ∧ (startServer ⟨true, true, true, true, true, true, true, true⟩
        [.acceptFail, .ok, .nameFail false]).1
      = SocketStatus.Listen :: loopEvents [.acceptFail, .ok, .nameFail false] :=
  ⟨(c7_error_taxonomy ⟨true, true, true, true, false, true, true, true⟩
      [.acceptFail, .ok]).2.1 rfl,
   (c7_error_taxonomy ⟨true, true, true, true, true, true, true, true⟩
      [.acceptFail, .ok, .nameFail false]).2.2.1 rfl⟩

end BCL
